import Mathlib

/-!
Verification development for the WeMemory conversational memory recall
engine.  The definitions below are a shallow embedding of the Python
sources:

  * `src/data_loader/session.py`   — `SessionBuilder.split_into_sessions`
  * `src/retrieval/vector_store.py` — `SimpleVectorStore`
  * `src/retrieval/hybrid.py`       — `HybridVectorStore.hybrid_search`
  * `src/api/services/recall_service.py` — `RecallService.recall` and helpers

Modelling conventions:

  * Python floats are modelled as elements of a `LinearOrderedField`
    (instantiated with `ℚ` for executable witnesses and with `ℝ` where the
    collaborating BM25 library's logarithms are needed).
  * Timestamps (`datetime` values) are modelled as integers counting
    seconds; `timedelta` thresholds become integer second counts.
  * Python `str.strip` / `str.lower` / substring `in` are modelled by
    structurally recursive char-list functions (`pyStrip`, `pyLower`,
    `pyContains`) so that concrete runs reduce in the kernel.  `pyLower`
    lowercases the ASCII range; the CJK characters used by the service are
    unaffected by Python's `str.lower` as well.
  * The external collaborators (jieba tokenization, the embedding
    provider, and the numpy / FAISS cosine-similarity kernels) are taken
    as inputs of the embedded functions: the similarity arrays and token
    lists they produce are parameters.  The `rank_bm25` scoring formula is
    embedded separately over `ℝ` (`bm25OkapiScores`) where a claim depends
    on the range of the scores it can produce.
-/

namespace WeMemory

/-! ## Python string primitives -/

/-- Whitespace recognised by the model of Python `str.strip`. -/
def wsChar (c : Char) : Bool :=
  c = ' ' || c = '\t' || c = '\n' || c = '\r'

/-- Model of Python `str.strip()`: drop whitespace from both ends. -/
def pyStrip (s : String) : String :=
  String.mk (((s.data.dropWhile wsChar).reverse.dropWhile wsChar).reverse)

/-- ASCII lowercasing of a single character (model of `str.lower` on the
character range the service's keyword lists use). -/
def lowerChar (c : Char) : Char :=
  if 'A' ≤ c ∧ c ≤ 'Z' then Char.ofNat (c.toNat + 32) else c

/-- Model of Python `str.lower()`. -/
def pyLower (s : String) : String :=
  String.mk (s.data.map lowerChar)

/-- Does `needle` occur as a contiguous run inside `hay`?  Model of the
Python substring test `needle in hay`. -/
def subOccurs (needle : List Char) : List Char → Bool
  | [] => needle.isEmpty
  | c :: rest => needle.isPrefixOf (c :: rest) || subOccurs needle rest

/-- Model of Python `needle in hay` on strings. -/
def pyContains (hay needle : String) : Bool :=
  subOccurs needle.data hay.data

/-! ## Session splitting (`src/data_loader/session.py`)

`SessionBuilder.split_into_sessions` walks a message stream, batching text
messages (Phase 1), emits one `main` session per batch (Phase 2) and
boundary `overlap` sessions (Phase 3). -/

/-- A chat message (`src/data_loader/models.py` `Message`), with the
fields `split_into_sessions` reads.  Timestamps are seconds. -/
structure Message where
  msg_type : ℤ
  content : String
  timestamp : ℤ
  sender_name : String
deriving DecidableEq, Repr

instance : Inhabited Message := ⟨⟨0, "", 0, ""⟩⟩

/-- A message is skipped by Phase 1 unless it is a text message
(`msg_type == 0`) with non-blank content (`session.py` lines 62-67). -/
def admitsMessage (msg : Message) : Bool :=
  msg.msg_type = 0 && !(msg.content = "") && !(pyStrip msg.content = "")

/-- The Phase 1 split test (`session.py` lines 69-77): split when the gap
to the previous admitted message exceeds `time_gap`, or the current batch
already has at least `max_messages` messages.  `current` is empty on the
first admitted message, in which case no split happens. -/
def shouldSplit (time_gap : ℤ) (max_messages : ℕ) (current : List Message)
    (msg : Message) : Bool :=
  match current.getLast? with
  | none => false
  | some lastMsg =>
      decide (time_gap < msg.timestamp - lastMsg.timestamp)
        || decide (max_messages ≤ current.length)

/-- State of the Phase 1 loop: the batches flushed so far and the batch
being accumulated. -/
structure Phase1State where
  batches : List (List Message)
  current : List Message
deriving DecidableEq, Repr

/-- One iteration of the Phase 1 loop (`session.py` lines 61-83).  A
split is only performed when the current batch has at least
`min_messages` messages; otherwise the batch keeps accumulating. -/
def phase1Step (time_gap : ℤ) (min_messages max_messages : ℕ)
    (s : Phase1State) (msg : Message) : Phase1State :=
  if !admitsMessage msg then s
  else if shouldSplit time_gap max_messages s.current msg
      && decide (min_messages ≤ s.current.length) then
    { batches := s.batches ++ [s.current], current := [msg] }
  else
    { batches := s.batches, current := s.current ++ [msg] }

/-- Phase 1 (`session.py` lines 60-89): fold the loop over the stream and
flush the trailing batch when it meets `min_messages`. -/
def phase1 (time_gap : ℤ) (min_messages max_messages : ℕ)
    (messages : List Message) : List (List Message) :=
  let s := messages.foldl (phase1Step time_gap min_messages max_messages)
    ⟨[], []⟩
  if min_messages ≤ s.current.length then s.batches ++ [s.current]
  else s.batches

/-- A session fragment (`src/data_loader/models.py` `ConversationSession`).
The md5 `session_id` is a hash of `type|first_ts|last_ts` computed by a
collaborator and is omitted; no claim reads it. -/
structure ConversationSession where
  conversation_name : String
  conversation_type : String
  participants : List String
  start_time : ℤ
  end_time : ℤ
  messages : List Message
  session_type : String
deriving DecidableEq, Repr

/-- `SessionBuilder._build_session` (`session.py` lines 125-161).
Python's `list(set(...))` for participants is modelled as `dedup`. -/
def buildSession (conversation_name conversation_type session_type : String)
    (messages : List Message) : ConversationSession :=
  { conversation_name := conversation_name
    conversation_type := conversation_type
    participants := (messages.map (·.sender_name)).dedup
    start_time := ((messages.head?).map (·.timestamp)).getD 0
    end_time := ((messages.getLast?).map (·.timestamp)).getD 0
    messages := messages
    session_type := session_type }

/-- Phase 3 (`session.py` lines 98-117): for each consecutive pair of
batches whose boundary gap is at most two hours, bridge the boundary with
the last five messages of the earlier batch and the first five of the
later one, emitting the bridge when it meets `min_messages`. -/
def overlapSessions (min_messages : ℕ)
    (conversation_name conversation_type : String)
    (batches : List (List Message)) : List ConversationSession :=
  (batches.zip batches.tail).filterMap (fun pair =>
    match pair.1.getLast?, pair.2.head? with
    | some lastMsg, some firstMsg =>
        if 7200 < firstMsg.timestamp - lastMsg.timestamp then none
        else
          let overlapMsgs :=
            pair.1.drop (pair.1.length - 5) ++ pair.2.take 5
          if min_messages ≤ overlapMsgs.length then
            some (buildSession conversation_name conversation_type
              "overlap" overlapMsgs)
          else none
    | _, _ => none)

/-- `SessionBuilder.split_into_sessions` (`session.py` lines 38-123):
main sessions from the Phase 1 batches followed by the Phase 3 overlaps. -/
def splitIntoSessions (time_gap : ℤ) (min_messages max_messages : ℕ)
    (messages : List Message)
    (conversation_name conversation_type : String) :
    List ConversationSession :=
  let batches := phase1 time_gap min_messages max_messages messages
  batches.map (buildSession conversation_name conversation_type "main")
    ++ overlapSessions min_messages conversation_name conversation_type
        batches

/-! ## Vector store (`src/retrieval/vector_store.py`) -/

/-- Per-session metadata as read by `hybrid_search` and the recall
service: the session fields kept in `SimpleVectorStore.metadata`. -/
structure Meta where
  content_text : String
  start_timestamp : ℤ
  participants : List String
  conversation_name : String
deriving DecidableEq, Repr

instance : Inhabited Meta := ⟨⟨"", 0, [], ""⟩⟩

/-- `SimpleVectorStore` state: a fixed dimension and three parallel
arrays.  Vector components live in a linear ordered field `α` standing
for Python floats. -/
structure Store (α : Type) where
  dimension : ℕ
  content_embeddings : List (List α)
  context_embeddings : List (List α)
  metadata : List Meta
deriving DecidableEq, Repr

/-- A store with no entries (`SimpleVectorStore.__init__`). -/
def emptyStore (α : Type) (dimension : ℕ) : Store α :=
  { dimension := dimension, content_embeddings := [],
    context_embeddings := [], metadata := [] }

/-- `SimpleVectorStore.add` (`vector_store.py` lines 29-40): append the
two vectors and the metadata to the parallel arrays.  The source body is
exactly three `append` calls; it contains no dimensionality or
normalization check. -/
def Store.add {α : Type} (s : Store α) (content_embedding context_embedding : List α)
    (metadata : Meta) : Store α :=
  { s with
    content_embeddings := s.content_embeddings ++ [content_embedding]
    context_embeddings := s.context_embeddings ++ [context_embedding]
    metadata := s.metadata ++ [metadata] }

/-! ## Hybrid store state (`src/retrieval/hybrid.py`) -/

/-- `HybridVectorStore` adds a lexical sub-index to the store.
`bm25Index = none` models `self.bm25_index is None`
(uninitialized); `some corpus` models a built `BM25Okapi` index whose
statistics were computed from `corpus` (the token lists captured in
`self.bm25_corpus_tokens` at build time).  The FAISS handles only select
which backend produces the similarity arrays, which this embedding takes
as inputs, so they are not part of the state. -/
structure HybridStore (α : Type) where
  base : Store α
  bm25Index : Option (List (List String))
deriving DecidableEq, Repr

/-- The token corpus a freshly built BM25 index covers: each metadata
entry's `content_text`, tokenized (`build_bm25_index`, `hybrid.py` lines
55-73).  `tok` is the jieba `cut_for_search` collaborator. -/
def bm25FreshCorpus {α : Type} (tok : String → List String) (h : HybridStore α) :
    List (List String) :=
  h.base.metadata.map (fun m => tok m.content_text)

/-- `HybridVectorStore.build_bm25_index` (`hybrid.py` lines 55-73). -/
def buildBM25Index {α : Type} (tok : String → List String) (h : HybridStore α) :
    HybridStore α :=
  { h with bm25Index := some (bm25FreshCorpus tok h) }

/-- `add` on the hybrid store is the inherited `SimpleVectorStore.add`:
it touches only the parallel arrays, never `bm25_index`. -/
def HybridStore.add {α : Type} (h : HybridStore α)
    (content_embedding context_embedding : List α) (metadata : Meta) :
    HybridStore α :=
  { h with base := h.base.add content_embedding context_embedding metadata }

/-- The token corpus over which `hybrid_search` computes BM25 scores
(`hybrid.py` lines 147-152): when `bm25_index is None` it first rebuilds
(covering the current metadata); otherwise the existing index — with the
corpus captured at its build time — is used as is. -/
def bm25CorpusUsed {α : Type} (tok : String → List String) (h : HybridStore α) :
    List (List String) :=
  match h.bm25Index with
  | none => bm25FreshCorpus tok h
  | some corpus => corpus

/-! ## Scoring pipeline of `hybrid_search` (`hybrid.py` lines 115-227) -/

/-- BM25 score normalization (`hybrid.py` lines 154-156):
`max_bm25 = max(bm25_scores) if max(bm25_scores) > 0 else 1.0`, then
divide every score by `max_bm25`.  (Python's `max` on an empty sequence
raises; the pipeline only reaches this point with a corpus built from the
store, so the `none` arm of `max?` is unreachable there and the divisor 1
is as good a model as any.) -/
def normalizeBM25 {α : Type} [LinearOrderedField α] (scores : List α) :
    List α :=
  let max_bm25 : α :=
    match scores.max? with
    | some m => if 0 < m then m else 1
    | none => 1
  scores.map (· / max_bm25)

/-- The blended vector score (`hybrid.py` lines 174-178): when a context
query vector was supplied and the backend produced context similarities,
blend content and context similarities with `content_weight` and
`context_weight`; otherwise use the content similarities alone. -/
def vectorScores {α : Type} [LinearOrderedField α]
    (hasContextQuery : Bool)
    (contentSims : List α) (contextSims : Option (List α))
    (content_weight context_weight : α) : List α :=
  match hasContextQuery, contextSims with
  | true, some ctx =>
      List.zipWith (fun c x => content_weight * c + context_weight * x)
        contentSims ctx
  | _, _ => contentSims

/-- The fused scores (`hybrid.py` line 181):
`hybrid = bm25_weight * bm25_norm + vector_weight * vector_scores`. -/
def hybridScores {α : Type} [LinearOrderedField α]
    (bm25_weight vector_weight : α) (bm25Norm vecScores : List α) :
    List α :=
  List.zipWith (fun b v => bm25_weight * b + vector_weight * v)
    bm25Norm vecScores

/-- The filter argument of `hybrid_search`: optional time range and
participants conditions (conjunction). -/
structure Filters where
  time_range : Option (ℤ × ℤ)
  participants : Option (List String)
deriving DecidableEq, Repr

/-- One metadata entry passes the filters (`hybrid.py` lines 186-204):
`start ≤ start_timestamp ≤ end` when a time range is given, and a
non-empty participant intersection when a participant set is given. -/
def filterMatch (f : Filters) (m : Meta) : Bool :=
  (match f.time_range with
   | none => true
   | some r =>
       decide (r.1 ≤ m.start_timestamp) && decide (m.start_timestamp ≤ r.2))
  && (match f.participants with
      | none => true
      | some ps => ps.any (fun p => m.participants.contains p))

/-- The eligible store indices (`hybrid.py` lines 183-204): all indices
when no filters are passed, otherwise those whose metadata matches. -/
def validIndices {α : Type} (filters : Option Filters) (store : Store α) :
    List ℕ :=
  match filters with
  | none => List.range store.metadata.length
  | some f =>
      (List.range store.metadata.length).filter
        (fun i => filterMatch f ((store.metadata.getD i default)))

/-- Insert index `i` into a list of indices sorted by strictly descending
key, placing `i` after any index of equal key already present. -/
def insertDesc {α : Type} [LinearOrder α] (key : ℕ → α) (i : ℕ) :
    List ℕ → List ℕ
  | [] => [i]
  | j :: rest => if key j < key i then i :: j :: rest
      else j :: insertDesc key i rest

/-- Model of `np.argsort(-scores)` (`hybrid.py` line 215): the indices
`0, …, n-1` ordered by descending `key`.  numpy's default quicksort makes
no promise about the relative order of equal keys; this model fixes the
stable order (equal keys keep ascending index) as one admissible
refinement.  No theorem below depends on the tie order except where the
claim itself is about it, and that claim is left unresolved rather than
proved from this modelling choice. -/
def argsortDesc {α : Type} [LinearOrder α] (key : ℕ → α) (n : ℕ) : List ℕ :=
  (List.range n).foldl (fun acc i => insertDesc key i acc) []

/-- One entry of the `hybrid_search` result list (`hybrid.py` lines
217-225). -/
structure SearchResult (α : Type) where
  score : α
  bm25_score : α
  vector_score : α
  content_score : α
  metadata : Meta
deriving DecidableEq, Repr

/-- `HybridVectorStore.hybrid_search` (`hybrid.py` lines 115-227) given
the outputs of its collaborators: `bm25Scores` is
`self.bm25_index.get_scores(query_tokens)` and `contentSims` /
`contextSims` are the cosine-similarity arrays the selected (linear or
FAISS) backend returned, with `contextSims = some _` exactly when the
backend computed them.  `hasContextQuery` is
`query_context_embedding is not None`.  The remaining steps —
normalization, blending, fusion, filtering, sorting, selection — are
embedded directly. -/
def hybridSearch {α : Type} [LinearOrderedField α] (store : Store α)
    (bm25Scores contentSims : List α) (contextSims : Option (List α))
    (hasContextQuery : Bool) (top_k : ℕ) (filters : Option Filters)
    (bm25_weight vector_weight content_weight context_weight : α) :
    List (SearchResult α) :=
  if store.content_embeddings.length = 0 then []
  else
    let bm25Norm := normalizeBM25 bm25Scores
    let vecScores := vectorScores hasContextQuery contentSims contextSims
      content_weight context_weight
    let hybrid := hybridScores bm25_weight vector_weight bm25Norm vecScores
    let valid := validIndices filters store
    if valid = [] then []
    else
      let validHybrid := valid.map (fun i => hybrid.getD i 0)
      let validBM25 := valid.map (fun i => bm25Norm.getD i 0)
      let validVec := valid.map (fun i => vecScores.getD i 0)
      let validMeta := valid.map (fun i => store.metadata.getD i default)
      let sorted := (argsortDesc (fun j => validHybrid.getD j 0)
        valid.length).take top_k
      sorted.map (fun idx =>
        { score := validHybrid.getD idx 0
          bm25_score := validBM25.getD idx 0
          vector_score := validVec.getD idx 0
          content_score := contentSims.getD (valid.getD idx 0) 0
          metadata := validMeta.getD idx default })

/-! ## The BM25 collaborator (`rank_bm25.BM25Okapi`)

`hybrid_search` obtains its raw lexical scores from the `rank_bm25`
library (`BM25Okapi(corpus_tokens).get_scores(query_tokens)` with the
library defaults `k1 = 1.5`, `b = 0.75`, `epsilon = 0.25`).  The library
is embedded here over `ℝ` because one claim depends on the range of
scores it can produce: `idf(w) = log(N − n(w) + 0.5) − log(n(w) + 0.5)`,
with every negative idf floored to `epsilon · average_idf` (the average
of the raw idfs over the vocabulary), and
`score(doc) = Σ_q idf(q) · f · (k1+1) / (f + k1 · (1 − b + b·|doc|/avgdl))`
with `f` the frequency of `q` in `doc` and out-of-vocabulary terms
contributing idf 0 (`self.idf.get(q) or 0`). -/

/-- Occurrences of token `w` in a document (`doc_freqs[i][w]`). -/
def termFreq (doc : List String) (w : String) : ℕ :=
  (doc.filter (· = w)).length

/-- Number of corpus documents containing `w` (`nd[w]`). -/
def docCount (corpus : List (List String)) (w : String) : ℕ :=
  (corpus.filter (fun d => d.contains w)).length

/-- The vocabulary: every token appearing in the corpus, once. -/
def vocab (corpus : List (List String)) : List String :=
  corpus.flatten.dedup

/-- The raw Okapi idf of a vocabulary word. -/
noncomputable def idfRaw (corpus : List (List String)) (w : String) : ℝ :=
  Real.log ((corpus.length : ℝ) - (docCount corpus w : ℝ) + 1/2)
    - Real.log ((docCount corpus w : ℝ) + 1/2)

/-- The average of the raw idfs over the vocabulary (`self.average_idf`). -/
noncomputable def averageIdf (corpus : List (List String)) : ℝ :=
  ((vocab corpus).map (idfRaw corpus)).sum / ((vocab corpus).length : ℝ)

/-- The flooring pass of `BM25Okapi._calc_idf` with `epsilon = 0.25`:
negative raw idfs are replaced by `epsilon · average_idf`; words outside
the vocabulary score 0 in `get_scores`. -/
noncomputable def idfOkapi (corpus : List (List String)) (w : String) : ℝ :=
  if w ∈ vocab corpus then
    if idfRaw corpus w < 0 then (1/4) * averageIdf corpus
    else idfRaw corpus w
  else 0

/-- Average document length (`self.avgdl`). -/
noncomputable def avgdl (corpus : List (List String)) : ℝ :=
  ((corpus.map List.length).sum : ℝ) / (corpus.length : ℝ)

/-- `BM25Okapi.get_scores` with the defaults `k1 = 3/2`, `b = 3/4`. -/
noncomputable def bm25OkapiScores (corpus : List (List String))
    (query : List String) : List ℝ :=
  corpus.map (fun doc =>
    (query.map (fun q =>
      let f : ℝ := (termFreq doc q : ℝ)
      idfOkapi corpus q *
        (f * (3/2 + 1)
          / (f + 3/2 * (1 - 3/4 + 3/4 * ((doc.length : ℝ) / avgdl corpus))))
      )).sum)

/-! ## Recall service (`src/api/services/recall_service.py`) -/

/-- One memory of a recall response (`recall_service.py` lines 122-130).
The md5-derived `memory_id` is computed by a hash collaborator from
`conversation_name` and `start_timestamp` and is omitted; no claim reads
it.  `processing_time_ms` is wall-clock and likewise omitted. -/
structure Memory (α : Type) where
  content : String
  relevance_score : α
  recall_reason : String
  timestamp : ℤ
  conversation_name : String
  participants : List String
deriving DecidableEq, Repr

/-- `RecallService._auto_recall_strategy` (`recall_service.py` lines
351-365): keyword heuristics over the lowercased context. -/
def autoRecallStrategy (context : String) : String :=
  let cl := pyLower context
  if ["谁", "who", "人"].any (fun w => pyContains cl w) then "people"
  else if ["什么时候", "when", "之前", "之后"].any (fun w => pyContains cl w)
    then "temporal"
  else "semantic"

/-- `RecallService._generate_recall_reason` (`recall_service.py` lines
379-412).  `fmt` renders a score the way Python's `"{:.2f}"` does; the
rendering is a collaborator of the model. -/
def generateRecallReason {α : Type} [LinearOrderedField α] (fmt : α → String)
    (score bm25_score vector_score : α) (strategy : String) : String :=
  let reasons : List String :=
    (if 1/2 < bm25_score then ["关键词匹配"] else [])
      ++ (if 7/10 < vector_score then ["语义相似"] else [])
  let reasons :=
    if strategy = "people" then reasons ++ ["相关人物"]
    else if strategy = "temporal" then reasons ++ ["时间相近"]
    else if strategy = "semantic" then
      (if reasons = [] then ["主题相关"] else reasons)
    else reasons
  let reason_text :=
    if reasons = [] then "综合匹配" else String.intercalate " + " reasons
  reason_text ++ " (相关度: " ++ fmt score ++ ")"

/-- The `time_range` request field: a dict with optional `start` / `end`
keys (`recall_service.py` lines 367-377). -/
structure TimeRangeReq where
  start? : Option ℤ
  end? : Option ℤ
deriving DecidableEq, Repr

/-- `RecallService._build_filters`: absent range → no filters; otherwise
a time-range filter with `start` defaulting to 0 and `end` to the current
wall-clock time. -/
def buildFilters (time_range : Option TimeRangeReq) (now : ℤ) :
    Option Filters :=
  match time_range with
  | none => none
  | some tr =>
      some { time_range := some (tr.start?.getD 0, tr.end?.getD now)
             participants := none }

/-- The `associations` block (`recall_service.py` lines 414-440). -/
structure Associations where
  people : List String
  topics : List String
  time_context : Option String
deriving DecidableEq, Repr

/-- `RecallService._generate_time_context` (`recall_service.py` lines
442-457).  `fmtDate` renders a timestamp the way
`datetime.fromtimestamp(·).strftime("%Y-%m-%d")` does; the calendar
rendering is a collaborator of the model. -/
def generateTimeContext {α : Type} (fmtDate : ℤ → String)
    (memories : List (Memory α)) : Option String :=
  match memories with
  | [] => none
  | _ :: _ =>
    let timestamps := memories.map (·.timestamp)
    let earliest := fmtDate ((timestamps.min?).getD 0)
    let latest := fmtDate ((timestamps.max?).getD 0)
    if earliest = latest then some ("都在 " ++ earliest)
    else some ("时间跨度：" ++ earliest ++ " 至 " ++ latest)

/-- `RecallService._extract_associations`: participant union, up to five
distinct conversation names, and the time-context line.  Python's
`set`-based union and dedup are modelled with `dedup`. -/
def extractAssociations {α : Type} (fmtDate : ℤ → String)
    (memories : List (Memory α)) : Associations :=
  { people := (memories.map (·.participants)).flatten.dedup
    topics := ((memories.map (·.conversation_name)).dedup).take 5
    time_context := generateTimeContext fmtDate memories }

/-- The recall response (`recall_service.py` lines 137-143) without the
wall-clock `processing_time_ms`. -/
structure RecallResponse (α : Type) where
  memories : List (Memory α)
  total_count : ℕ
  associations : Associations
  recall_strategy : String
deriving DecidableEq, Repr

/-- Assembly of one memory from one search result (`recall_service.py`
lines 114-131). -/
def memoryOfResult {α : Type} [LinearOrderedField α] (fmt : α → String)
    (strategy : String) (r : SearchResult α) : Memory α :=
  { content := r.metadata.content_text
    relevance_score := r.score
    recall_reason := generateRecallReason fmt r.score r.bm25_score
      r.vector_score strategy
    timestamp := r.metadata.start_timestamp
    conversation_name := r.metadata.conversation_name
    participants := r.metadata.participants }

/-- The per-request environment: the loaded hybrid store together with
the collaborator outputs that depend only on the store contents and the
`context` string — the BM25 scores for the jieba-tokenized context and
the cosine similarities for its embedding — plus the two rendering
collaborators. -/
structure RecallEnv (α : Type) where
  store : Store α
  bm25Scores : List α
  contentSims : List α
  fmt : α → String
  fmtDate : ℤ → String

/-- Strategy resolution (`recall_service.py` lines 90-94): `auto` is
classified by the keyword heuristics, any other kind is used as is. -/
def resolveStrategy (context recall_type : String) : String :=
  if recall_type = "auto" then autoRecallStrategy context else recall_type

/-- The candidate list of `RecallService.recall` (`recall_service.py`
lines 99-111): ask the hybrid index for `top_k * 2` candidates (with no
context query vector and the default fusion weights), drop results
scoring below `min_relevance`, keep the first `top_k`. -/
def recallFiltered {α : Type} [LinearOrderedField α] (env : RecallEnv α)
    (top_k : ℕ) (min_relevance : α) (time_range : Option TimeRangeReq)
    (now : ℤ) : List (SearchResult α) :=
  ((hybridSearch env.store env.bm25Scores env.contentSims none false
      (top_k * 2) (buildFilters time_range now)
      (1/2) (1/2) (85/100) (15/100)).filter
    (fun r => decide (min_relevance ≤ r.score))).take top_k

/-- The cache-miss body of `RecallService.recall` (`recall_service.py`
lines 87-143): resolve the strategy, retrieve and filter candidates,
assemble memories and associations. -/
def recallCompute {α : Type} [LinearOrderedField α] (env : RecallEnv α)
    (context recall_type : String) (top_k : ℕ) (min_relevance : α)
    (time_range : Option TimeRangeReq) (now : ℤ) : RecallResponse α :=
  let strategy := resolveStrategy context recall_type
  let memories := (recallFiltered env top_k min_relevance time_range now).map
    (memoryOfResult env.fmt strategy)
  { memories := memories
    total_count := memories.length
    associations := extractAssociations env.fmtDate memories
    recall_strategy := strategy }

/-- `RecallService._cache_ttl` (one hour, in seconds). -/
def cacheTTL : ℤ := 3600

/-- `RecallService._generate_cache_key`: the key is
`md5(f"{context}_{recall_type}_{top_k}")`.  The md5 collaborator is a
function of the joined string, so the key is modelled by that string
itself: every property the claims use — that the key is derived from
exactly `(context, recall_type, top_k)` — is preserved. -/
def cacheKey (context recall_type : String) (top_k : ℕ) : String :=
  context ++ "_" ++ recall_type ++ "_" ++ toString top_k

/-- One cache slot: the response and the wall-clock time it was stored. -/
structure CacheEntry (α : Type) where
  data : RecallResponse α
  timestamp : ℤ
deriving DecidableEq

/-- `RecallService.recall` with its cache (`recall_service.py` lines
79-151): probe the cache under the generated key, serve a hit younger
than the TTL as is, otherwise compute and store.  The dict is modelled
as an association list; insertion conses the new binding, which shadows
any expired one exactly as the dict overwrite does. -/
def recallWithCache {α : Type} [LinearOrderedField α] (env : RecallEnv α)
    (cache : List (String × CacheEntry α)) (context recall_type : String)
    (top_k : ℕ) (min_relevance : α) (time_range : Option TimeRangeReq)
    (now : ℤ) : RecallResponse α × List (String × CacheEntry α) :=
  let key := cacheKey context recall_type top_k
  match cache.lookup key with
  | some entry =>
      if now - entry.timestamp < cacheTTL then (entry.data, cache)
      else
        let r := recallCompute env context recall_type top_k min_relevance
          time_range now
        (r, (key, ⟨r, now⟩) :: cache)
  | none =>
      let r := recallCompute env context recall_type top_k min_relevance
        time_range now
      (r, (key, ⟨r, now⟩) :: cache)

/-! ## Helper lemmas -/

/-- Every member of `insertDesc key i l` is `i` or a member of `l`. -/
lemma mem_insertDesc {α : Type} [LinearOrder α] {key : ℕ → α} {i j : ℕ}
    {l : List ℕ} (h : j ∈ insertDesc key i l) : j = i ∨ j ∈ l := by
  induction l with
  | nil => simpa [insertDesc] using h
  | cons a t ih =>
      simp only [insertDesc] at h
      split at h
      · rcases List.mem_cons.mp h with h | h
        · exact Or.inl h
        · exact Or.inr h
      · rcases List.mem_cons.mp h with h | h
        · exact Or.inr (by simp [h])
        · rcases ih h with h | h
          · exact Or.inl h
          · exact Or.inr (List.mem_cons_of_mem _ h)

/-- Members of the insertion-sort fold come from the accumulator or the
input list. -/
lemma mem_foldl_insertDesc {α : Type} [LinearOrder α] (key : ℕ → α) :
    ∀ (l acc : List ℕ) (j : ℕ),
      j ∈ l.foldl (fun a i => insertDesc key i a) acc → j ∈ acc ∨ j ∈ l := by
  intro l
  induction l with
  | nil => intro acc j h; exact Or.inl h
  | cons a t ih =>
      intro acc j h
      simp only [List.foldl_cons] at h
      rcases ih _ j h with h' | h'
      · rcases mem_insertDesc h' with h'' | h''
        · exact Or.inr (by simp [h''])
        · exact Or.inl h''
      · exact Or.inr (List.mem_cons_of_mem _ h')

/-- Every index produced by `argsortDesc key n` is below `n`. -/
lemma mem_argsortDesc_lt {α : Type} [LinearOrder α] {key : ℕ → α} {n j : ℕ}
    (h : j ∈ argsortDesc key n) : j < n := by
  simp only [argsortDesc] at h
  rcases mem_foldl_insertDesc key (List.range n) [] j h with h' | h'
  · simp at h'
  · exact List.mem_range.mp h'

/-- `getD` through a `map`, at an in-range position. -/
lemma getD_map_of_lt {β γ : Type _} (f : β → γ) (l : List β) {i : ℕ}
    (d : γ) (d' : β) (h : i < l.length) :
    (l.map f).getD i d = f (l.getD i d') := by
  rw [List.getD_eq_getElem?_getD, List.getD_eq_getElem?_getD,
    List.getElem?_map, List.getElem?_eq_getElem h]
  rfl

/-- `getD` at an in-range position is a member. -/
lemma getD_mem_of_lt {β : Type _} (l : List β) {i : ℕ} (d : β)
    (h : i < l.length) : l.getD i d ∈ l := by
  rw [List.getD_eq_getElem?_getD, List.getElem?_eq_getElem h]
  exact List.getElem_mem h

/-- `getD` through a `zipWith`, at a position in range of both lists. -/
lemma getD_zipWith_of_lt {β : Type _} (f : β → β → β) (a b : List β)
    {i : ℕ} (d : β) (ha : i < a.length) (hb : i < b.length) :
    (List.zipWith f a b).getD i d = f (a.getD i d) (b.getD i d) := by
  rw [List.getD_eq_getElem?_getD, List.getD_eq_getElem?_getD,
    List.getD_eq_getElem?_getD, List.getElem?_zipWith,
    List.getElem?_eq_getElem ha, List.getElem?_eq_getElem hb]
  rfl

/-- `normalizeBM25` preserves length. -/
lemma normalizeBM25_length {α : Type} [LinearOrderedField α]
    (scores : List α) : (normalizeBM25 scores).length = scores.length := by
  simp [normalizeBM25]

/-- Every eligible index points into the metadata array. -/
lemma validIndices_lt {α : Type} {filters : Option Filters}
    {store : Store α} {i : ℕ} (h : i ∈ validIndices filters store) :
    i < store.metadata.length := by
  cases filters with
  | none => simpa [validIndices] using h
  | some f =>
      simp only [validIndices] at h
      exact List.mem_range.mp (List.mem_of_mem_filter h)

/-- Structure of a `hybridSearch` hit: it reports, at some store index
`i`, the fused score, the normalized BM25 score, and the blended vector
score. -/
lemma hybridSearch_result_form {α : Type} [LinearOrderedField α]
    {store : Store α} {bm25Scores contentSims : List α}
    {contextSims : Option (List α)} {hasContextQuery : Bool} {top_k : ℕ}
    {filters : Option Filters} {wB wV wC wX : α} {r : SearchResult α}
    (hr : r ∈ hybridSearch store bm25Scores contentSims contextSims
      hasContextQuery top_k filters wB wV wC wX) :
    ∃ i < store.metadata.length,
      r.score = (hybridScores wB wV (normalizeBM25 bm25Scores)
          (vectorScores hasContextQuery contentSims contextSims wC wX)).getD i 0
      ∧ r.bm25_score = (normalizeBM25 bm25Scores).getD i 0
      ∧ r.vector_score = (vectorScores hasContextQuery contentSims
          contextSims wC wX).getD i 0 := by
  unfold hybridSearch at hr
  split at hr
  · simp at hr
  · dsimp only at hr
    split at hr
    · simp at hr
    · obtain ⟨idx, hidx, rfl⟩ := List.mem_map.mp hr
      have hidx' : idx < (validIndices filters store).length := by
        have := List.mem_of_mem_take hidx
        have hlt := mem_argsortDesc_lt this
        simpa using hlt
      refine ⟨(validIndices filters store).getD idx 0, ?_, ?_, ?_, ?_⟩
      · exact validIndices_lt (getD_mem_of_lt _ _ hidx')
      · exact getD_map_of_lt _ _ 0 0 hidx'
      · exact getD_map_of_lt _ _ 0 0 hidx'
      · exact getD_map_of_lt _ _ 0 0 hidx'

/-- Any score in a normalized BM25 array is at most 1, and is nonnegative
whenever the raw scores all are. -/
lemma normalizeBM25_bounds {α : Type} [LinearOrderedField α]
    {scores : List α} {x : α} (hx : x ∈ normalizeBM25 scores) :
    x ≤ 1 ∧ ((∀ s ∈ scores, 0 ≤ s) → 0 ≤ x) := by
  simp only [normalizeBM25] at hx
  obtain ⟨s, hs, rfl⟩ := List.mem_map.mp hx
  obtain ⟨m, hm⟩ : ∃ m, scores.max? = some m := by
    cases h : scores.max? with
    | none => rw [List.max?_eq_none_iff] at h; subst h; simp at hs
    | some m => exact ⟨m, rfl⟩
  have hsm : s ≤ m :=
    (List.max?_le_iff (fun _ _ _ => max_le_iff) hm).1 (le_refl m) s hs
  have hd : (match scores.max? with
      | some m => if 0 < m then m else 1
      | none => (1 : α)) = if 0 < m then m else 1 := by rw [hm]
  rw [hd]
  by_cases hpos : 0 < m
  · rw [if_pos hpos]
    refine ⟨(div_le_one hpos).mpr hsm, fun hnn => ?_⟩
    exact div_nonneg (hnn s hs) hpos.le
  · rw [if_neg hpos]
    refine ⟨by simpa using hsm.trans ((not_lt.mp hpos).trans zero_le_one),
      fun hnn => by simpa using hnn s hs⟩

/-- The Phase 1 loop invariant: every flushed batch respects both size
bounds and the accumulating batch never exceeds the upper bound. -/
def batchBounds (min_messages max_messages : ℕ) (s : Phase1State) : Prop :=
  (∀ b ∈ s.batches, min_messages ≤ b.length ∧ b.length ≤ max_messages)
    ∧ s.current.length ≤ max_messages

/-- One Phase 1 step preserves the invariant (for `min ≤ max`, `1 ≤ max`):
a batch is flushed only when the split condition certifies `min ≤ len`,
and the accumulating batch cannot pass `max` because reaching `max`
forces the split. -/
lemma phase1Step_bounds {time_gap : ℤ} {min_messages max_messages : ℕ}
    (hmax : 1 ≤ max_messages) (hle : min_messages ≤ max_messages)
    {s : Phase1State} (hs : batchBounds min_messages max_messages s)
    (msg : Message) :
    batchBounds min_messages max_messages
      (phase1Step time_gap min_messages max_messages s msg) := by
  rcases hs with ⟨hb, hc⟩
  unfold phase1Step
  split
  · exact ⟨hb, hc⟩
  · split
    · rename_i hcond
      refine ⟨?_, by simpa using hmax⟩
      intro b hbmem
      rcases List.mem_append.mp hbmem with h | h
      · exact hb b h
      · rcases List.mem_singleton.mp h with rfl
        refine ⟨?_, hc⟩
        have h2 := (Bool.and_eq_true _ _).mp hcond |>.2
        exact of_decide_eq_true h2
    · rename_i hcond
      refine ⟨hb, ?_⟩
      have hlt : s.current.length < max_messages := by
        rcases Nat.lt_or_ge s.current.length max_messages with h | h
        · exact h
        · exfalso
          have hne : s.current ≠ [] := by
            intro hnil
            rw [hnil] at h
            simp at h
            omega
          have hsplit : shouldSplit time_gap max_messages s.current msg
              = true := by
            unfold shouldSplit
            cases hlast : s.current.getLast? with
            | none => exact absurd (List.getLast?_eq_none_iff.mp hlast) hne
            | some lastMsg => simp [h]
          have hmin : decide (min_messages ≤ s.current.length) = true :=
            decide_eq_true (le_trans hle h)
          rw [hsplit, hmin] at hcond
          simp at hcond
      simpa using hlt

/-- The invariant holds after folding any message stream. -/
lemma foldl_phase1Step_bounds (time_gap : ℤ)
    {min_messages max_messages : ℕ} (hmax : 1 ≤ max_messages)
    (hle : min_messages ≤ max_messages) :
    ∀ (msgs : List Message) (s : Phase1State),
      batchBounds min_messages max_messages s →
      batchBounds min_messages max_messages
        (msgs.foldl (phase1Step time_gap min_messages max_messages) s) := by
  intro msgs
  induction msgs with
  | nil => intro s hs; exact hs
  | cons m t ih =>
      intro s hs
      exact ih _ (phase1Step_bounds hmax hle hs m)

/-- Every batch Phase 1 emits respects both size bounds. -/
lemma phase1_bounds (time_gap : ℤ) {min_messages max_messages : ℕ}
    (hmax : 1 ≤ max_messages) (hle : min_messages ≤ max_messages)
    (messages : List Message) :
    ∀ b ∈ phase1 time_gap min_messages max_messages messages,
      min_messages ≤ b.length ∧ b.length ≤ max_messages := by
  have hfold := foldl_phase1Step_bounds time_gap hmax hle messages ⟨[], []⟩
    ⟨by intro b hb; simp at hb, by simp⟩
  intro b hb
  unfold phase1 at hb
  dsimp only at hb
  split at hb
  · rename_i hfinal
    rcases List.mem_append.mp hb with h | h
    · exact hfold.1 b h
    · rcases List.mem_singleton.mp h with rfl
      exact ⟨hfinal, hfold.2⟩
  · exact hfold.1 b hb

/-- Every overlap session carries the `overlap` tag. -/
lemma overlapSessions_type {min_messages : ℕ}
    {conversation_name conversation_type : String}
    {batches : List (List Message)} {sess : ConversationSession}
    (h : sess ∈ overlapSessions min_messages conversation_name
      conversation_type batches) :
    sess.session_type = "overlap" := by
  simp only [overlapSessions] at h
  obtain ⟨pair, _, hmk⟩ := List.mem_filterMap.mp h
  split at hmk
  · split at hmk
    · exact Option.noConfusion hmk
    · split at hmk
      · cases hmk
        rfl
      · exact Option.noConfusion hmk
  · exact Option.noConfusion hmk

/-! ## Claim theorems -/

/-- Concrete messages for the session-splitting claims: two messages one
minute apart followed by one far beyond the 30-minute gap. -/
def c2m1 : Message := ⟨0, "hi", 0, "alice"⟩

/-- Second concrete message (60 seconds after the first). -/
def c2m2 : Message := ⟨0, "yo", 60, "bob"⟩

/-- Third concrete message (far beyond the 30-minute gap). -/
def c2m3 : Message := ⟨0, "ok", 10000, "alice"⟩

/-- C2 (counterexample): at `c2m3` a split point is reached while the
current batch `[c2m1, c2m2]` holds fewer than `min_msgs = 3` messages,
yet `c2m1` and `c2m2` do appear in an emitted main session — the batch is
not dropped. -/
theorem C2_small_batch_not_dropped_counterexample :
    (shouldSplit 1800 20
        (([c2m1, c2m2].foldl (phase1Step 1800 3 20) ⟨[], []⟩).current) c2m3
          = true
      ∧ (([c2m1, c2m2].foldl (phase1Step 1800 3 20) ⟨[], []⟩).current).length
          < 3)
    ∧ ∃ sess ∈ splitIntoSessions 1800 3 20 [c2m1, c2m2, c2m3] "c" "private",
        sess.session_type = "main" ∧ c2m1 ∈ sess.messages
          ∧ c2m2 ∈ sess.messages := by
  decide

/-- C2 (amended): when a split point is reached (the split test holds for
an admitted message) but the current batch holds fewer than `min_msgs`
messages, the batch is not dropped: the split is skipped and the message
is appended to the same batch, so its messages can still appear in an
emitted main session; only a trailing batch shorter than `min_msgs` at
end of stream is discarded. -/
theorem C2_small_batch_split_skipped (time_gap : ℤ)
    (min_messages max_messages : ℕ) (s : Phase1State) (msg : Message)
    (hmsg : admitsMessage msg = true)
    (hsplit : shouldSplit time_gap max_messages s.current msg = true)
    (hsmall : s.current.length < min_messages) :
    phase1Step time_gap min_messages max_messages s msg
      = { batches := s.batches, current := s.current ++ [msg] } := by
  unfold phase1Step
  rw [hmsg, hsplit]
  simp [Nat.not_le.mpr hsmall]

/-- Witness for the amended C2 at the concrete split point of the
counterexample run. -/
theorem C2_small_batch_split_skipped_witness :
    phase1Step 1800 3 20 ⟨[], [c2m1, c2m2]⟩ c2m3
      = { batches := ([] : List (List Message)),
          current := [c2m1, c2m2] ++ [c2m3] } :=
  C2_small_batch_split_skipped 1800 3 20 ⟨[], [c2m1, c2m2]⟩ c2m3
    (by decide) (by decide) (by decide)

/-- C5: for every input message stream and the default parameters
(`min_msgs = 3`, `max_msgs = 20`), every main session emitted by
`split_into_sessions` contains between 3 and 20 messages inclusive. -/
theorem C5_main_session_size_bounds (time_gap : ℤ)
    (messages : List Message)
    (conversation_name conversation_type : String)
    {sess : ConversationSession}
    (hmem : sess ∈ splitIntoSessions time_gap 3 20 messages
      conversation_name conversation_type)
    (hmain : sess.session_type = "main") :
    3 ≤ sess.messages.length ∧ sess.messages.length ≤ 20 := by
  unfold splitIntoSessions at hmem
  dsimp only at hmem
  rcases List.mem_append.mp hmem with h | h
  · obtain ⟨b, hb, rfl⟩ := List.mem_map.mp h
    have hbb := phase1_bounds time_gap (by norm_num) (by norm_num)
      messages b hb
    simpa [buildSession] using hbb
  · exact absurd (hmain.symm.trans (overlapSessions_type h)) (by decide)

/-- A third concrete message close to the first two, giving one full
main session. -/
def c5m3 : Message := ⟨0, "ok", 120, "carol"⟩

/-- Witness for C5 on a concrete three-message stream. -/
theorem C5_main_session_size_bounds_witness :
    3 ≤ (buildSession "c" "private" "main"
          [c2m1, c2m2, c5m3]).messages.length
      ∧ (buildSession "c" "private" "main"
          [c2m1, c2m2, c5m3]).messages.length ≤ 20 :=
  C5_main_session_size_bounds 1800 [c2m1, c2m2, c5m3] "c" "private"
    (by decide) (by decide)

/-- C7 (counterexample): `SimpleVectorStore.add` appends a content vector
of length 1 to a store of dimension 768 — a vector that is neither of the
store's dimensionality nor unit-norm nor the zero sentinel — instead of
rejecting it. -/
theorem C7_add_no_validation_counterexample :
    ((emptyStore ℚ 768).add [5] [7] ⟨"d", 0, [], "c"⟩).content_embeddings
        = [[5]]
      ∧ ((emptyStore ℚ 768).add [5] [7] ⟨"d", 0, [], "c"⟩).context_embeddings
        = [[7]]
      ∧ ((emptyStore ℚ 768).add [5] [7] ⟨"d", 0, [], "c"⟩).metadata
        = [⟨"d", 0, [], "c"⟩]
      ∧ ([(5 : ℚ)]).length ≠ (emptyStore ℚ 768).dimension
      ∧ (([(5 : ℚ)]).map (fun x => x * x)).sum ≠ 1
      ∧ [(5 : ℚ)] ≠ [0] := by
  refine ⟨rfl, rfl, rfl, by decide, by norm_num, by norm_num⟩

/-- C7 (amended): `add` performs no validation at all — it
unconditionally appends the given vectors and metadata to the parallel
arrays, whatever their dimensionality or norm. -/
theorem C7_add_appends_unconditionally {α : Type} (s : Store α)
    (content_embedding context_embedding : List α) (m : Meta) :
    (s.add content_embedding context_embedding m).content_embeddings
        = s.content_embeddings ++ [content_embedding]
      ∧ (s.add content_embedding context_embedding m).context_embeddings
        = s.context_embeddings ++ [context_embedding]
      ∧ (s.add content_embedding context_embedding m).metadata
        = s.metadata ++ [m]
      ∧ (s.add content_embedding context_embedding m).dimension
        = s.dimension :=
  ⟨rfl, rfl, rfl, rfl⟩

/-- A one-token-per-document tokenizer for the C8 scenarios. -/
def c8tok : String → List String := fun s => [s]

/-- A hybrid store holding one document, lexical index not yet built. -/
def c8store1 : HybridStore ℚ :=
  ⟨(emptyStore ℚ 768).add [1] [1] ⟨"doc one", 1, ["a"], "c"⟩, none⟩

/-- The store after building the BM25 index and then adding a second
document without rebuilding: the lexical index is stale. -/
def c8stale : HybridStore ℚ :=
  (buildBM25Index c8tok c8store1).add [1] [1] ⟨"doc two", 2, ["b"], "c"⟩

/-- C8 (counterexample): searching the stale store computes BM25 scores
over a one-document token corpus although the store holds two documents —
no rebuild is triggered by staleness. -/
theorem C8_stale_search_counterexample :
    (bm25CorpusUsed c8tok c8stale).length = 1
      ∧ c8stale.base.metadata.length = 2
      ∧ bm25CorpusUsed c8tok c8stale ≠ bm25FreshCorpus c8tok c8stale := by
  decide

/-- C8 (amended): only an uninitialized (`None`) lexical index triggers a
rebuild before scoring; after an `add` without rebuild the index stays
stale and `hybrid_search` scores over the token corpus captured at build
time, which misses the newly added document. -/
theorem C8_rebuild_only_when_uninitialized {α : Type}
    (tok : String → List String) (h : HybridStore α) (c x : List α)
    (m : Meta) (huninit : h.bm25Index = none) :
    bm25CorpusUsed tok h = bm25FreshCorpus tok h
      ∧ bm25CorpusUsed tok ((buildBM25Index tok h).add c x m)
        = bm25FreshCorpus tok h
      ∧ (bm25CorpusUsed tok ((buildBM25Index tok h).add c x m)).length
        = h.base.metadata.length
      ∧ ((buildBM25Index tok h).add c x m).base.metadata.length
        = h.base.metadata.length + 1 := by
  refine ⟨?_, rfl, ?_, ?_⟩
  · unfold bm25CorpusUsed
    rw [huninit]
  · show (bm25FreshCorpus tok h).length = h.base.metadata.length
    simp [bm25FreshCorpus]
  · simp [HybridStore.add, Store.add, buildBM25Index]

/-- Witness for the amended C8 at the concrete one-document store. -/
theorem C8_rebuild_only_when_uninitialized_witness :
    bm25CorpusUsed c8tok c8store1 = bm25FreshCorpus c8tok c8store1
      ∧ bm25CorpusUsed c8tok
          ((buildBM25Index c8tok c8store1).add [1] [1]
            ⟨"doc two", 2, ["b"], "c"⟩)
        = bm25FreshCorpus c8tok c8store1
      ∧ (bm25CorpusUsed c8tok
          ((buildBM25Index c8tok c8store1).add [1] [1]
            ⟨"doc two", 2, ["b"], "c"⟩)).length
        = c8store1.base.metadata.length
      ∧ ((buildBM25Index c8tok c8store1).add [1] [1]
          ⟨"doc two", 2, ["b"], "c"⟩).base.metadata.length
        = c8store1.base.metadata.length + 1 :=
  C8_rebuild_only_when_uninitialized c8tok c8store1 [1] [1]
    ⟨"doc two", 2, ["b"], "c"⟩ rfl

/-- C1: the `score` of every `hybrid_search` result equals
`bm25_weight · bm25_n[i] + vector_weight · vec[i]` at its store index
`i`, where `vec[i] = 0.85 · cos_content[i] + 0.15 · cos_context[i]` when
a query context vector was supplied and `vec[i] = cos_content[i]`
otherwise.  The hypotheses record the backend's shape guarantees: the
similarity and score arrays are parallel to the store, and context
similarities are produced exactly when a context query vector is given. -/
theorem C1_hybrid_score_weighted_fusion {α : Type} [LinearOrderedField α]
    (store : Store α) (bm25Scores contentSims : List α)
    (contextSims : Option (List α)) (hasContextQuery : Bool) (top_k : ℕ)
    (filters : Option Filters) (bm25_weight vector_weight : α)
    (hctx : contextSims.isSome = hasContextQuery)
    (hb : bm25Scores.length = store.metadata.length)
    (hc : contentSims.length = store.metadata.length)
    (hx : ∀ ctx, contextSims = some ctx →
      ctx.length = store.metadata.length)
    {r : SearchResult α}
    (hr : r ∈ hybridSearch store bm25Scores contentSims contextSims
      hasContextQuery top_k filters bm25_weight vector_weight
      (85/100) (15/100)) :
    ∃ i < store.metadata.length,
      (∀ ctx, contextSims = some ctx →
        r.score = bm25_weight * (normalizeBM25 bm25Scores).getD i 0
          + vector_weight * ((85/100) * contentSims.getD i 0
              + (15/100) * ctx.getD i 0))
      ∧ (contextSims = none →
        r.score = bm25_weight * (normalizeBM25 bm25Scores).getD i 0
          + vector_weight * contentSims.getD i 0) := by
  obtain ⟨i, hi, hscore, _, _⟩ := hybridSearch_result_form hr
  refine ⟨i, hi, ?_, ?_⟩
  · rintro ctx rfl
    have hT : hasContextQuery = true := by simpa using hctx.symm
    subst hT
    have hxlen : ctx.length = store.metadata.length := hx ctx rfl
    have h1 : i < (normalizeBM25 bm25Scores).length := by
      rw [normalizeBM25_length, hb]; exact hi
    have hvec : vectorScores true contentSims (some ctx)
        ((85 : α)/100) ((15 : α)/100)
      = List.zipWith (fun c x => (85/100) * c + (15/100) * x)
          contentSims ctx := rfl
    have h2 : i < (vectorScores true contentSims (some ctx)
        ((85 : α)/100) ((15 : α)/100)).length := by
      rw [hvec, List.length_zipWith, hc, hxlen]
      simpa using hi
    rw [hscore]
    unfold hybridScores
    rw [getD_zipWith_of_lt _ _ _ 0 h1 h2, hvec,
      getD_zipWith_of_lt _ _ _ 0 (by rw [hc]; exact hi)
        (by rw [hxlen]; exact hi)]
  · rintro rfl
    have hF : hasContextQuery = false := by simpa using hctx.symm
    subst hF
    have h1 : i < (normalizeBM25 bm25Scores).length := by
      rw [normalizeBM25_length, hb]; exact hi
    have h2 : i < (vectorScores false contentSims none
        ((85 : α)/100) ((15 : α)/100)).length := by
      show i < contentSims.length
      rw [hc]; exact hi
    rw [hscore]
    unfold hybridScores
    rw [getD_zipWith_of_lt _ _ _ 0 h1 h2]
    rfl

/-- Concrete metadata for the C1 witness. -/
def c1Meta : Meta := ⟨"doc", 5, ["p"], "conv"⟩

/-- A one-document store for the C1 witness. -/
def c1Store : Store ℚ := ⟨768, [[1]], [[1]], [c1Meta]⟩

/-- The single hit the C1 witness search returns. -/
def c1Result : SearchResult ℚ := ⟨1, 1, 1, 1, c1Meta⟩

/-- Witness for C1 on a concrete one-document search with a context
query vector. -/
theorem C1_hybrid_score_weighted_fusion_witness :
    ∃ i < c1Store.metadata.length,
      (∀ ctx, (some [(1 : ℚ)] : Option (List ℚ)) = some ctx →
        c1Result.score = (1/2) * (normalizeBM25 [(2 : ℚ)]).getD i 0
          + (1/2) * ((85/100) * ([(1 : ℚ)]).getD i 0
              + (15/100) * ctx.getD i 0))
      ∧ ((some [(1 : ℚ)] : Option (List ℚ)) = none →
        c1Result.score = (1/2) * (normalizeBM25 [(2 : ℚ)]).getD i 0
          + (1/2) * ([(1 : ℚ)]).getD i 0) :=
  C1_hybrid_score_weighted_fusion c1Store [2] [1] (some [1]) true 1 none
    (1/2) (1/2) rfl rfl rfl (by rintro ctx h; cases h; rfl)
    (by
      have hev : hybridSearch c1Store [(2 : ℚ)] [1] (some [1]) true 1 none
          (1/2) (1/2) (85/100) (15/100) = [c1Result] := by
        norm_num [hybridSearch, normalizeBM25, vectorScores, hybridScores,
          validIndices, argsortDesc, insertDesc, c1Store, c1Meta, c1Result,
          List.max?, List.range_succ]
      rw [hev]
      exact List.mem_singleton.mpr rfl)

/-- C3 (amended): `hybrid_search` normalizes BM25 scores by dividing by
the maximum score (or by 1 when the maximum is not positive); every
normalized score reported in a result is at most 1, and lies in `[0, 1]`
whenever the raw BM25 scores are all nonnegative.  (The unconditional
`[0, 1]` of the original claim fails: the BM25 collaborator can produce
negative scores, see the counterexample.) -/
theorem C3_bm25_normalization_bounds {α : Type} [LinearOrderedField α]
    (store : Store α) (bm25Scores contentSims : List α)
    (contextSims : Option (List α)) (hasContextQuery : Bool) (top_k : ℕ)
    (filters : Option Filters) (wB wV wC wX : α) {r : SearchResult α}
    (hr : r ∈ hybridSearch store bm25Scores contentSims contextSims
      hasContextQuery top_k filters wB wV wC wX) :
    r.bm25_score ≤ 1
      ∧ ((∀ s ∈ bm25Scores, 0 ≤ s) → 0 ≤ r.bm25_score) := by
  obtain ⟨i, hi, _, hbs, _⟩ := hybridSearch_result_form hr
  by_cases hlen : i < (normalizeBM25 bm25Scores).length
  · rw [hbs]
    exact normalizeBM25_bounds (getD_mem_of_lt _ _ hlen)
  · rw [hbs, List.getD_eq_getElem?_getD,
      List.getElem?_eq_none (by omega : (normalizeBM25 bm25Scores).length ≤ i)]
    exact ⟨by simp, fun _ => by simp⟩

/-- Concrete metadata for the C3 witness. -/
def c3Meta : Meta := ⟨"text", 7, ["q"], "chat"⟩

/-- A one-document store for the C3 witness. -/
def c3Store : Store ℚ := ⟨768, [[1]], [[1]], [c3Meta]⟩

/-- The single hit the C3 witness search returns. -/
def c3Result : SearchResult ℚ := ⟨1, 1, 1, 1, c3Meta⟩

/-- Witness for the amended C3 on a concrete one-document search. -/
theorem C3_bm25_normalization_bounds_witness :
    c3Result.bm25_score ≤ 1
      ∧ ((∀ s ∈ [(3 : ℚ)], 0 ≤ s) → 0 ≤ c3Result.bm25_score) :=
  C3_bm25_normalization_bounds c3Store [3] [1] none false 1 none
    (1/2) (1/2) (85/100) (15/100)
    (by
      have hev : hybridSearch c3Store [(3 : ℚ)] [1] none false 1 none
          (1/2) (1/2) (85/100) (15/100) = [c3Result] := by
        norm_num [hybridSearch, normalizeBM25, vectorScores, hybridScores,
          validIndices, argsortDesc, insertDesc, c3Store, c3Meta, c3Result,
          List.max?, List.range_succ]
      rw [hev]
      exact List.mem_singleton.mpr rfl)

/-- C6: `recall` requests `2 · top_k` candidates from the hybrid index,
removes every candidate scoring below `min_relevance`, keeps the first
`top_k` of the remainder, and consequently returns at most `top_k`
memories, each with `relevance_score ≥ min_relevance`. -/
theorem C6_recall_filter_and_cap {α : Type} [LinearOrderedField α]
    (env : RecallEnv α) (context recall_type : String) (top_k : ℕ)
    (min_relevance : α) (time_range : Option TimeRangeReq) (now : ℤ) :
    (recallCompute env context recall_type top_k min_relevance time_range
        now).memories
      = (((hybridSearch env.store env.bm25Scores env.contentSims none
            false (top_k * 2) (buildFilters time_range now)
            (1/2) (1/2) (85/100) (15/100)).filter
          (fun r => decide (min_relevance ≤ r.score))).take top_k).map
        (memoryOfResult env.fmt (resolveStrategy context recall_type))
    ∧ (recallCompute env context recall_type top_k min_relevance
        time_range now).memories.length ≤ top_k
    ∧ ∀ m ∈ (recallCompute env context recall_type top_k min_relevance
        time_range now).memories,
        min_relevance ≤ m.relevance_score := by
  refine ⟨rfl, ?_, ?_⟩
  · show ((recallFiltered env top_k min_relevance time_range now).map
      (memoryOfResult env.fmt (resolveStrategy context recall_type))).length
        ≤ top_k
    rw [List.length_map]
    exact List.length_take_le _ _
  · intro m hm
    obtain ⟨r, hrmem, rfl⟩ := List.mem_map.mp hm
    have hr' : r ∈ (hybridSearch env.store env.bm25Scores env.contentSims
        none false (top_k * 2) (buildFilters time_range now)
        (1/2) (1/2) (85/100) (15/100)).filter
          (fun r => decide (min_relevance ≤ r.score)) :=
      List.mem_of_mem_take hrmem
    exact of_decide_eq_true (List.mem_filter.mp hr').2

/-- Concrete metadata for the C6 witness. -/
def c6Meta : Meta := ⟨"note", 9, ["r"], "talk"⟩

/-- A one-document environment for the C6 witness. -/
def c6Env : RecallEnv ℚ :=
  ⟨⟨768, [[1]], [[1]], [c6Meta]⟩, [2], [1], fun _ => "", fun _ => ""⟩

/-- Witness for C6: the single memory the concrete recall returns scores
at least the `min_relevance` cutoff `3/10`. -/
theorem C6_recall_filter_and_cap_witness :
    (3/10 : ℚ) ≤ (memoryOfResult (fun _ => "") "semantic"
      ⟨1, 1, 1, 1, c6Meta⟩).relevance_score :=
  (C6_recall_filter_and_cap c6Env "q" "semantic" 1 (3/10) none 0).2.2 _
    (by
      have hev : (recallCompute c6Env "q" "semantic" 1 (3/10) none
          0).memories
          = [memoryOfResult (fun _ => "") "semantic" ⟨1, 1, 1, 1, c6Meta⟩] := by
        have hstrat : (if ("semantic" : String) = "auto" then
            autoRecallStrategy "q" else "semantic") = "semantic" := by
          decide
        norm_num [recallCompute, recallFiltered, resolveStrategy,
          buildFilters, hybridSearch, normalizeBM25, vectorScores,
          hybridScores, validIndices, argsortDesc, insertDesc, c6Env,
          c6Meta, List.max?, List.range_succ, hstrat]
      rw [hev]
      exact List.mem_singleton.mpr rfl)

/-- Two memory lists with the same timestamps yield the same time
context. -/
lemma generateTimeContext_eq_of_timestamps {α : Type} (fmtDate : ℤ → String)
    (l1 l2 : List (Memory α))
    (h : l1.map (·.timestamp) = l2.map (·.timestamp)) :
    generateTimeContext fmtDate l1 = generateTimeContext fmtDate l2 := by
  cases l1 with
  | nil =>
      cases l2 with
      | nil => rfl
      | cons b t2 => simp at h
  | cons a t1 =>
      cases l2 with
      | nil => simp at h
      | cons b t2 =>
          simp only [generateTimeContext]
          rw [h]

/-- The associations block does not depend on the strategy used to build
the memories: it reads only strategy-independent fields. -/
lemma extractAssociations_strategy {α : Type} [LinearOrderedField α]
    (fmt : α → String) (fmtDate : ℤ → String) (s1 s2 : String)
    (L : List (SearchResult α)) :
    extractAssociations fmtDate (L.map (memoryOfResult fmt s1))
      = extractAssociations fmtDate (L.map (memoryOfResult fmt s2)) := by
  unfold extractAssociations
  have hp : (L.map (memoryOfResult fmt s1)).map (·.participants)
      = (L.map (memoryOfResult fmt s2)).map (·.participants) := by
    rw [List.map_map, List.map_map]
    rfl
  have hn : (L.map (memoryOfResult fmt s1)).map (·.conversation_name)
      = (L.map (memoryOfResult fmt s2)).map (·.conversation_name) := by
    rw [List.map_map, List.map_map]
    rfl
  have ht := generateTimeContext_eq_of_timestamps fmtDate
    (L.map (memoryOfResult fmt s1))
    (L.map (memoryOfResult fmt s2))
    (by rw [List.map_map, List.map_map]; rfl)
  rw [hp, hn, ht]

/-- C9: for a fixed store and fixed `context`, `top_k`, `min_relevance`
and `time_range`, two recall computations that differ only in the
requested recall kind return the same memories apart from the
`recall_reason` texts — in particular identical `relevance_score`
values — and identical associations and counts; the kind affects only
the explanation strings and the `recall_strategy` label. -/
theorem C9_recall_kind_advisory {α : Type} [LinearOrderedField α]
    (env : RecallEnv α) (context kind1 kind2 : String) (top_k : ℕ)
    (min_relevance : α) (time_range : Option TimeRangeReq) (now : ℤ) :
    (recallCompute env context kind1 top_k min_relevance time_range
        now).memories.map (fun m => { m with recall_reason := "" })
      = (recallCompute env context kind2 top_k min_relevance time_range
        now).memories.map (fun m => { m with recall_reason := "" })
    ∧ (recallCompute env context kind1 top_k min_relevance time_range
        now).memories.map (·.relevance_score)
      = (recallCompute env context kind2 top_k min_relevance time_range
        now).memories.map (·.relevance_score)
    ∧ (recallCompute env context kind1 top_k min_relevance time_range
        now).associations
      = (recallCompute env context kind2 top_k min_relevance time_range
        now).associations
    ∧ (recallCompute env context kind1 top_k min_relevance time_range
        now).total_count
      = (recallCompute env context kind2 top_k min_relevance time_range
        now).total_count := by
  have hm : ∀ kind, (recallCompute env context kind top_k min_relevance
      time_range now).memories
      = (recallFiltered env top_k min_relevance time_range now).map
          (memoryOfResult env.fmt (resolveStrategy context kind)) :=
    fun _ => rfl
  refine ⟨?_, ?_, ?_, ?_⟩
  · rw [hm kind1, hm kind2, List.map_map, List.map_map]
    rfl
  · rw [hm kind1, hm kind2, List.map_map, List.map_map]
    rfl
  · show extractAssociations env.fmtDate _ = extractAssociations env.fmtDate _
    exact extractAssociations_strategy env.fmt env.fmtDate _ _ _
  · show ((recallFiltered env top_k min_relevance time_range now).map
        _).length = ((recallFiltered env top_k min_relevance time_range
        now).map _).length
    rw [List.length_map, List.length_map]

/-- C10: the cache key is derived solely from
`(context, recall_type, top_k)`, so a second recall within the TTL that
differs only in `min_relevance` or `time_range` is served the first
call's cached response unchanged — the second call's `min_relevance` and
`time_range` are never applied, and the cache is untouched. -/
theorem C10_cache_ignores_relevance_and_time {α : Type}
    [LinearOrderedField α] (env : RecallEnv α)
    (cache : List (String × CacheEntry α)) (context recall_type : String)
    (top_k : ℕ) (mr1 mr2 : α) (tr1 tr2 : Option TimeRangeReq) (t1 t2 : ℤ)
    (hmiss : cache.lookup (cacheKey context recall_type top_k) = none)
    (httl : t2 - t1 < cacheTTL) :
    (recallWithCache env
        ((recallWithCache env cache context recall_type top_k mr1 tr1
          t1).2) context recall_type top_k mr2 tr2 t2).1
      = (recallWithCache env cache context recall_type top_k mr1 tr1
        t1).1
    ∧ (recallWithCache env
        ((recallWithCache env cache context recall_type top_k mr1 tr1
          t1).2) context recall_type top_k mr2 tr2 t2).2
      = (recallWithCache env cache context recall_type top_k mr1 tr1
        t1).2 := by
  have h1 : recallWithCache env cache context recall_type top_k mr1 tr1 t1
      = (recallCompute env context recall_type top_k mr1 tr1 t1,
         (cacheKey context recall_type top_k,
          ⟨recallCompute env context recall_type top_k mr1 tr1 t1, t1⟩)
            :: cache) := by
    unfold recallWithCache
    dsimp only
    rw [hmiss]
  rw [h1]
  unfold recallWithCache
  dsimp only
  simp only [List.lookup, beq_self_eq_true]
  rw [if_pos httl]
  exact ⟨rfl, rfl⟩

/-- A minimal environment for the C10 witness. -/
def c10Env : RecallEnv ℚ :=
  ⟨emptyStore ℚ 768, [], [], fun _ => "", fun _ => ""⟩

/-- Witness for C10: a concrete second call within the TTL, with a
different `min_relevance` and a time range, returns the first call's
response and leaves the cache unchanged. -/
theorem C10_cache_ignores_relevance_and_time_witness :
    (recallWithCache c10Env
        ((recallWithCache c10Env [] "x" "semantic" 5 (3/10) none 0).2)
        "x" "semantic" 5 (9/10) (some ⟨some 1, some 2⟩) 100).1
      = (recallWithCache c10Env [] "x" "semantic" 5 (3/10) none 0).1
    ∧ (recallWithCache c10Env
        ((recallWithCache c10Env [] "x" "semantic" 5 (3/10) none 0).2)
        "x" "semantic" 5 (9/10) (some ⟨some 1, some 2⟩) 100).2
      = (recallWithCache c10Env [] "x" "semantic" 5 (3/10) none 0).2 :=
  C10_cache_ignores_relevance_and_time c10Env [] "x" "semantic" 5
    (3/10) (9/10) none (some ⟨some 1, some 2⟩) 0 100 rfl (by decide)

/-- C3 (counterexample): on the two-document token corpus
`[["a"], ["a"]]` with query `["a"]`, the BM25 collaborator's idf flooring
yields a negative idf (`0.25 · average_idf` with
`average_idf = log(1/2) − log(5/2) < 0`), so every raw score is
negative; the maximum is then not positive, `hybrid_search` divides by 1,
and the normalized scores stay negative — outside `[0, 1]`. -/
theorem C3_negative_normalized_score_counterexample :
    ∃ x ∈ normalizeBM25 (bm25OkapiScores [["a"], ["a"]] ["a"]), x < 0 := by
  have hdc : docCount [["a"], ["a"]] "a" = 2 := rfl
  have hvoc : vocab [["a"], ["a"]] = ["a"] := rfl
  have hraw : idfRaw [["a"], ["a"]] "a"
      = Real.log (1/2) - Real.log (5/2) := by
    rw [idfRaw, hdc]
    norm_num
  have hrawneg : idfRaw [["a"], ["a"]] "a" < 0 := by
    rw [hraw]
    have hlog := Real.log_lt_log (show (0 : ℝ) < 1/2 by norm_num)
      (show (1/2 : ℝ) < 5/2 by norm_num)
    linarith
  have havg : averageIdf [["a"], ["a"]] = idfRaw [["a"], ["a"]] "a" := by
    rw [averageIdf, hvoc]
    simp
  have hidf : idfOkapi [["a"], ["a"]] "a"
      = (1/4) * idfRaw [["a"], ["a"]] "a" := by
    rw [idfOkapi, if_pos (by rw [hvoc]; exact List.mem_singleton.mpr rfl),
      if_pos hrawneg, havg]
  have hneg : idfOkapi [["a"], ["a"]] "a" < 0 := by
    rw [hidf]
    linarith
  have havgdl : avgdl [["a"], ["a"]] = 1 := by
    rw [avgdl]
    norm_num
  have hscore : bm25OkapiScores [["a"], ["a"]] ["a"]
      = [idfOkapi [["a"], ["a"]] "a", idfOkapi [["a"], ["a"]] "a"] := by
    rw [bm25OkapiScores]
    simp only [List.map_cons, List.map_nil, List.sum_cons, List.sum_nil]
    rw [havgdl]
    norm_num [termFreq]
  have hmax : (bm25OkapiScores [["a"], ["a"]] ["a"]).max?
      = some (idfOkapi [["a"], ["a"]] "a") := by
    rw [hscore]
    simp [List.max?]
  have hnorm : normalizeBM25 (bm25OkapiScores [["a"], ["a"]] ["a"])
      = [idfOkapi [["a"], ["a"]] "a", idfOkapi [["a"], ["a"]] "a"] := by
    rw [normalizeBM25, hmax]
    dsimp only
    rw [if_neg (not_lt.mpr hneg.le)]
    rw [hscore]
    norm_num
  refine ⟨idfOkapi [["a"], ["a"]] "a", ?_, hneg⟩
  rw [hnorm]
  exact List.mem_cons_self _ _

end WeMemory
